import Mathlib

/-!
Shallow embedding of the `orm` package (two dialect files: the
numbered-placeholder dialect, here suffixed `Pg`, and the
`?`-placeholder dialect, here suffixed `My`) together with proofs
about the claims of its specification.

Go strings of the source are modelled as Lean `String`s; struct rows
are modelled as lists of fields carrying the reflection data the code
inspects (identifier, `json` tag, `pri` tag, and the value with its
reflect.Kind).  Calls into `fmt`/`encoding/json`/`time` are modelled
by carrying their rendered output inside the value, since the source
only ever forwards those strings.
-/

set_option autoImplicit false

namespace Orm

/-- Go `strings.Join`. -/
def stringsJoin (l : List String) (sep : String) : String :=
  match l with
  | [] => ""
  | [x] => x
  | x :: rest => x ++ sep ++ stringsJoin rest sep

/-- UTF-8 byte size of a rune, as Go's `range` over a string advances it. -/
def utf8Size (c : Char) : Nat :=
  if c.toNat < 0x80 then 1
  else if c.toNat < 0x800 then 2
  else if c.toNat < 0x10000 then 3
  else 4

/-- Loop body of `toSnake`: `i` is the byte offset of the current rune,
exactly as Go's `for i, asc := range name` produces it.  An upper-case
ASCII rune is shifted by 32 and, when `i > 0`, preceded by `_` (byte 95).
The appended byte is `uint8(asc)`, i.e. the rune truncated mod 256. -/
def toSnakeAux : Nat → List Char → List Char
  | _, [] => []
  | i, c :: rest =>
    if 65 ≤ c.toNat ∧ c.toNat ≤ 90 then
      if i > 0 then
        '_' :: Char.ofNat ((c.toNat + 32) % 256) :: toSnakeAux (i + utf8Size c) rest
      else
        Char.ofNat ((c.toNat + 32) % 256) :: toSnakeAux (i + utf8Size c) rest
    else
      Char.ofNat (c.toNat % 256) :: toSnakeAux (i + utf8Size c) rest

/-- `toSnake` from the source (identical in both dialect files). -/
def toSnake (name : String) : String :=
  String.mk (toSnakeAux 0 name.toList)

/-- What the spec's words describe for one character: lower-case an
upper-case ASCII letter, and insert a `_` before it when it is not the
first character. -/
def snakeSpecChar (first : Bool) (c : Char) : List Char :=
  if 65 ≤ c.toNat ∧ c.toNat ≤ 90 then
    if first then [Char.ofNat (c.toNat + 32)] else ['_', Char.ofNat (c.toNat + 32)]
  else [c]

/-- Modelled from the spec's words: per-character snake-casing over the
whole identifier. -/
def snakeSpec : List Char → List Char
  | [] => []
  | c :: rest => snakeSpecChar true c ++ rest.flatMap (snakeSpecChar false)

theorem one_le_utf8Size (c : Char) : 1 ≤ utf8Size c := by
  unfold utf8Size
  repeat' split
  all_goals omega

theorem toSnakeAux_tail (cs : List Char) :
    ∀ i, 0 < i → (∀ c ∈ cs, c.toNat < 128) →
      toSnakeAux i cs = cs.flatMap (snakeSpecChar false) := by
  induction cs with
  | nil => intro i _ _; simp [toSnakeAux]
  | cons c rest ih =>
    intro i hi hascii
    have hc : c.toNat < 128 := hascii c (by simp)
    have hrest : ∀ d ∈ rest, d.toNat < 128 := fun d hd => hascii d (by simp [hd])
    have hpos : 0 < i + utf8Size c := by
      have := one_le_utf8Size c
      omega
    by_cases hup : 65 ≤ c.toNat ∧ c.toNat ≤ 90
    · have hmod : (c.toNat + 32) % 256 = c.toNat + 32 := Nat.mod_eq_of_lt (by omega)
      simp [toSnakeAux, snakeSpecChar, hup, hi, hmod, ih _ hpos hrest]
    · have hmod : c.toNat % 256 = c.toNat := Nat.mod_eq_of_lt (by omega)
      have hchar : Char.ofNat (c.toNat % 256) = c := by
        rw [hmod]; exact Char.ofNat_toNat c
      simp [toSnakeAux, snakeSpecChar, hup, hchar, ih _ hpos hrest]

theorem toSnake_eq_snakeSpec (s : String) (h : ∀ c ∈ s.toList, c.toNat < 128) :
    toSnake s = String.mk (snakeSpec s.toList) := by
  unfold toSnake snakeSpec
  cases hs : s.toList with
  | nil => simp [toSnakeAux]
  | cons c rest =>
    rw [hs] at h
    have hc : c.toNat < 128 := h c (by simp)
    have hrest : ∀ d ∈ rest, d.toNat < 128 := fun d hd => h d (by simp [hd])
    have htail := toSnakeAux_tail rest (utf8Size c)
      (by have := one_le_utf8Size c; omega) hrest
    by_cases hup : 65 ≤ c.toNat ∧ c.toNat ≤ 90
    · have hmod : (c.toNat + 32) % 256 = c.toNat + 32 := Nat.mod_eq_of_lt (by omega)
      simp [toSnakeAux, snakeSpecChar, hup, hmod, htail]
    · have hmod : c.toNat % 256 = c.toNat := Nat.mod_eq_of_lt (by omega)
      have hchar : Char.ofNat (c.toNat % 256) = c := by
        rw [hmod]; exact Char.ofNat_toNat c
      simp [toSnakeAux, snakeSpecChar, hup, hchar, htail]

end Orm

namespace Orm

/-- C3 counterexample: the column-name derivation puts a delimiter before
each of the two consecutive interior capitals of `UserID`, producing
`user_i_d` and not `user_id` as the claim states. -/
theorem toSnake_userid_cex :
    toSnake "UserID" = "user_i_d" ∧ toSnake "UserID" ≠ "user_id" := by
  constructor
  · rfl
  · decide

/-- C3 (amended): for every identifier made of ASCII characters, the
column-name derivation lower-cases every upper-case letter and inserts a
`_` delimiter before every interior upper-case letter (so consecutive
capitals each receive their own delimiter); in particular `UserID` maps
to `user_i_d`, not `user_id`. -/
theorem toSnake_spec_amended (s : String) (h : ∀ c ∈ s.toList, c.toNat < 128) :
    toSnake s = String.mk (snakeSpec s.toList) ∧ toSnake "UserID" = "user_i_d" :=
  ⟨toSnake_eq_snakeSpec s h, rfl⟩

/-- Witness for the amended C3 theorem at the identifier `UserID`. -/
theorem toSnake_spec_amended_witness :
    toSnake "UserID" = String.mk (snakeSpec "UserID".toList) :=
  (toSnake_spec_amended "UserID" (by decide)).1

/-- A Go value as the engine inspects it through `reflect`: its kind and
whatever rendered text the external `fmt`/`json`/`time` calls produce
for it (the source only ever forwards those strings). -/
inductive GoValue where
  /-- kind `reflect.String` -/
  | vStr (s : String)
  /-- kind `reflect.Int` -/
  | vInt (n : Int)
  /-- kind `reflect.Int64` -/
  | vInt64 (n : Int)
  /-- kind `reflect.Float64`, with its `%v` rendering -/
  | vFloat (rv : String)
  /-- kind `reflect.Interface`, with its `%v` rendering -/
  | vIface (rv : String)
  /-- a `time.Time` (kind `reflect.Struct`): whether `IsZero`, the
  `Format('2006-01-02 15:04:05')` output, and the `%v` rendering -/
  | vTime (zero : Bool) (fmtd : String) (rv : String)
  /-- any other struct kind, with its `%v` rendering -/
  | vStructO (rv : String)
  /-- kind `reflect.Slice`: the `json.Marshal` output and the `%v` rendering -/
  | vSlice (jsonR : String) (rv : String)
  /-- kind `reflect.Pointer`, with its `%v` rendering -/
  | vPtr (rv : String)
  deriving DecidableEq

/-- `fmt.Sprintf("%v", value)`. -/
def GoValue.render : GoValue → String
  | .vStr s => s
  | .vInt n => toString n
  | .vInt64 n => toString n
  | .vFloat rv => rv
  | .vIface rv => rv
  | .vTime _ _ rv => rv
  | .vStructO rv => rv
  | .vSlice _ rv => rv
  | .vPtr rv => rv

/-- One struct field as reflection exposes it: identifier, `json` tag,
`pri` tag (empty string = absent tag) and the field's value. -/
structure GoField where
  name : String
  jsonTag : String
  priTag : String
  value : GoValue
  deriving DecidableEq

/-- The column name the write path derives for a field: the `json` tag
when present, otherwise the snake-cased identifier. -/
def GoField.colName (f : GoField) : String :=
  if f.jsonTag ≠ "" then f.jsonTag else toSnake f.name

/-- An entity value: its type name, the result of an optional
`TableName()` capability, and its fields. -/
structure GoStruct where
  typeName : String
  tableNameM : Option String
  fields : List GoField
  deriving DecidableEq

/-- `getTableName` from the source: the `TableName()` capability wins
unless it yields the empty string, else snake-case the type name. -/
def getTableName (t : GoStruct) : String :=
  let tableName := t.tableNameM.getD ""
  if tableName = "" then toSnake t.typeName else tableName

/-- The synthesized (column list, value list) pair. -/
structure KV where
  Key : String
  Value : String
  deriving DecidableEq

/-- Value literal rendering of the numbered-dialect `getKeysValues`:
strings and interfaces are single-quoted, a zero `time.Time` becomes
`DEFAULT` and a non-zero one its quoted format, slices are their JSON
encoding single-quoted, anything else is the bare `%v` rendering. -/
def renderInsertPg : GoValue → String
  | .vStr s => "'" ++ s ++ "'"
  | .vIface rv => "'" ++ rv ++ "'"
  | .vTime zero fmtd _ => if zero then "DEFAULT" else fmtd
  | .vSlice jsonR _ => "'" ++ jsonR ++ "'"
  | .vStructO rv => rv
  | .vInt n => toString n
  | .vInt64 n => toString n
  | .vFloat rv => rv
  | .vPtr rv => rv

/-- Whether the numbered-dialect write path treats a field as the
primary key: derived column name equal to `id`, or a non-empty `pri`
tag. -/
def isPriPg (f : GoField) : Bool :=
  f.colName = "id" || f.priTag ≠ ""

/-- Whether a field's kind is `reflect.Pointer` (skipped on write paths). -/
def isPtrField (f : GoField) : Bool :=
  match f.value with
  | .vPtr _ => true
  | _ => false

/-- One loop iteration of the numbered-dialect `getKeysValues`:
primary-key fields and pointer-kind fields contribute nothing. -/
def kvEntryPg (f : GoField) : Option (String × String) :=
  if isPriPg f then none
  else if isPtrField f then none
  else some (f.colName, renderInsertPg f.value)

/-- `getKeysValues` of the numbered dialect. -/
def getKeysValuesPg (fields : List GoField) : KV :=
  let entries := fields.filterMap kvEntryPg
  ⟨stringsJoin (entries.map Prod.fst) ",", stringsJoin (entries.map Prod.snd) ","⟩

/-- One loop iteration of the `?`-dialect `getKeysValues`: every field
contributes a back-quoted column and a value (strings quoted, all other
kinds rendered bare); nothing is excluded. -/
def kvEntryMy (f : GoField) : String × String :=
  let strValue :=
    match f.value with
    | .vStr s => "'" ++ s ++ "'"
    | v => v.render
  ("\x60" ++ f.colName ++ "\x60", strValue)

/-- `getKeysValues` of the `?` dialect. -/
def getKeysValuesMy (fields : List GoField) : KV :=
  let entries := fields.map kvEntryMy
  ⟨stringsJoin (entries.map Prod.fst) ",", stringsJoin (entries.map Prod.snd) ","⟩

/-- The INSERT statement text the numbered-dialect `Insert` synthesizes
for one row. -/
def insertSqlPg (tn : String) (row : List GoField) : String :=
  let kv := getKeysValuesPg row
  "INSERT INTO " ++ tn ++ "(" ++ kv.Key ++ ") VALUES (" ++ kv.Value ++ ") RETURNING id"

/-- The INSERT statement text the `?`-dialect `Insert` synthesizes for
one row. -/
def insertSqlMy (tn : String) (row : List GoField) : String :=
  let kv := getKeysValuesMy row
  "INSERT INTO " ++ tn ++ "(" ++ kv.Key ++ ") VALUES (" ++ kv.Value ++ ")"

/-- ASCII lower-casing, as the `(?i)` regexp flag folds letters. -/
def lowerAscii (c : Char) : Char :=
  if 65 ≤ c.toNat ∧ c.toNat ≤ 90 then Char.ofNat (c.toNat + 32) else c

/-- Case-insensitive literal-prefix test: does `s` start with the
(lower-case) pattern `p`? -/
def ciPrefix : List Char → List Char → Bool
  | [], _ => true
  | _ :: _, [] => false
  | p :: ps, c :: cs => lowerAscii c = p && ciPrefix ps cs

/-- Does a space occur before any newline?  This decides whether the
lazy `(.*?) ` tail of the statement-detection regexps can match. -/
def spaceNoNl : List Char → Bool
  | [] => false
  | c :: rest => if c = ' ' then true else if c = '\n' then false else spaceNoNl rest

/-- Unanchored matcher for the regexps `(?i)DELETE (.*?) ` and
`(?i)DELETE FROM (.*?) `: at some position, the case-folded literal
`pat` occurs, followed by a space with no intervening newline. -/
def hasCiPat (pat : List Char) : List Char → Bool
  | [] => false
  | c :: rest =>
    (ciPrefix pat (c :: rest) && spaceNoNl (List.drop pat.length (c :: rest))) ||
      hasCiPat pat rest

/-- Declarative reading of the regexp `(?i)<pat>(.*?) `: the string
splits as `pre ++ kw ++ mid ++ ' ' :: post` where `kw` case-folds to the
pattern and `mid` holds no newline. -/
def MatchesCiPat (pat : List Char) (s : List Char) : Prop :=
  ∃ pre kw mid post, s = pre ++ kw ++ mid ++ ' ' :: post ∧
    kw.map lowerAscii = pat ∧ ∀ c ∈ mid, c ≠ '\n'

theorem ciPrefix_iff (p : List Char) : ∀ s : List Char,
    ciPrefix p s = true ↔ p.length ≤ s.length ∧ (s.take p.length).map lowerAscii = p := by
  induction p with
  | nil => intro s; simp [ciPrefix]
  | cons q ps ih =>
    intro s
    cases s with
    | nil => simp [ciPrefix]
    | cons c cs =>
      simp only [ciPrefix, Bool.and_eq_true, decide_eq_true_eq, ih cs, List.length_cons,
        List.take_succ_cons, List.map_cons, List.cons.injEq]
      constructor
      · rintro ⟨h1, h2, h3⟩; exact ⟨by omega, h1, h3⟩
      · rintro ⟨h1, h2, h3⟩; exact ⟨h2, by omega, h3⟩

theorem spaceNoNl_iff : ∀ s : List Char,
    spaceNoNl s = true ↔ ∃ mid post, s = mid ++ ' ' :: post ∧ ∀ c ∈ mid, c ≠ '\n' := by
  intro s
  induction s with
  | nil =>
    simp only [spaceNoNl, Bool.false_eq_true, false_iff]
    rintro ⟨mid, post, h, -⟩
    cases mid <;> simp at h
  | cons c rest ih =>
    by_cases hsp : c = ' '
    · subst hsp
      simp only [spaceNoNl, if_pos trivial, true_iff]
      exact ⟨[], rest, rfl, by simp⟩
    · by_cases hnl : c = '\n'
      · subst hnl
        have hlhs : spaceNoNl ('\n' :: rest) = false := by
          simp [spaceNoNl]
        rw [hlhs]
        simp only [Bool.false_eq_true, false_iff]
        rintro ⟨mid, post, h, hmid⟩
        cases mid with
        | nil =>
          rw [List.nil_append] at h
          injection h with h1 _
          exact absurd h1 (by decide)
        | cons d mid' =>
          simp only [List.cons_append, List.cons.injEq] at h
          exact hmid '\n' (h.1 ▸ List.mem_cons_self _ _) rfl
      · have hlhs : spaceNoNl (c :: rest) = spaceNoNl rest := by
          simp [spaceNoNl, hsp, hnl]
        rw [hlhs, ih]
        constructor
        · rintro ⟨mid, post, h, hmid⟩
          refine ⟨c :: mid, post, by simp [h], ?_⟩
          intro d hd
          rcases List.mem_cons.mp hd with h1 | h2
          · exact h1 ▸ hnl
          · exact hmid d h2
        · rintro ⟨mid, post, h, hmid⟩
          cases mid with
          | nil =>
            rw [List.nil_append] at h
            injection h with h1 _
            exact absurd h1 hsp
          | cons d mid' =>
            simp only [List.cons_append, List.cons.injEq] at h
            exact ⟨mid', post, h.2, fun e he => hmid e (h.1 ▸ List.mem_cons_of_mem _ he)⟩

theorem hasCiPat_iff (pat : List Char) : ∀ s : List Char,
    hasCiPat pat s = true ↔ MatchesCiPat pat s := by
  intro s
  induction s with
  | nil =>
    simp only [hasCiPat, Bool.false_eq_true, false_iff]
    rintro ⟨pre, kw, mid, post, h, -, -⟩
    have := congrArg List.length h
    simp only [List.length_nil, List.length_append, List.length_cons] at this
    omega
  | cons c rest ih =>
    simp only [hasCiPat, Bool.or_eq_true, Bool.and_eq_true, ih]
    constructor
    · rintro (⟨hpre, hsp⟩ | hrest)
      · rw [ciPrefix_iff] at hpre
        obtain ⟨hlen, htake⟩ := hpre
        rw [spaceNoNl_iff] at hsp
        obtain ⟨mid, post, hdrop, hmid⟩ := hsp
        refine ⟨[], (c :: rest).take pat.length, mid, post, ?_, htake, hmid⟩
        calc c :: rest
            = (c :: rest).take pat.length ++ (c :: rest).drop pat.length :=
              (List.take_append_drop _ _).symm
          _ = (c :: rest).take pat.length ++ (mid ++ ' ' :: post) := by rw [hdrop]
          _ = [] ++ (c :: rest).take pat.length ++ mid ++ ' ' :: post := by
              simp [List.append_assoc]
      · obtain ⟨pre, kw, mid, post, h, hmap, hmid⟩ := hrest
        exact ⟨c :: pre, kw, mid, post, by simp [h], hmap, hmid⟩
    · rintro ⟨pre, kw, mid, post, h, hmap, hmid⟩
      cases pre with
      | nil =>
        left
        simp only [List.nil_append] at h
        have hklen : kw.length = pat.length := by
          have := congrArg List.length hmap; simpa using this
        have hkw : List.take pat.length (kw ++ (mid ++ ' ' :: post)) = kw := by
          rw [← hklen]
          exact List.take_left kw (mid ++ ' ' :: post)
        have hdrop : List.drop pat.length (kw ++ (mid ++ ' ' :: post)) = mid ++ ' ' :: post := by
          rw [← hklen]
          exact List.drop_left kw (mid ++ ' ' :: post)
        have hform : c :: rest = kw ++ (mid ++ ' ' :: post) := by
          rw [h]; simp [List.append_assoc]
        constructor
        · rw [ciPrefix_iff]
          constructor
          · rw [hform]
            simp only [List.length_append, List.length_cons]
            omega
          · rw [hform, hkw]
            exact hmap
        · rw [spaceNoNl_iff]
          exact ⟨mid, post, by rw [hform, hdrop], hmid⟩
      | cons d pre' =>
        right
        simp only [List.cons_append, List.cons.injEq] at h
        exact ⟨pre', kw, mid, post, h.2, hmap, hmid⟩

/-- SET-list value literal of `generateUpdate`: strings, interfaces,
non-time structs and slices (via JSON) are single-quoted, a `time.Time`
renders as its quoted format, numbers stay bare. -/
def renderUpdateValue : GoValue → String
  | .vStr s => "'" ++ s ++ "'"
  | .vIface rv => "'" ++ rv ++ "'"
  | .vTime _ fmtd _ => fmtd
  | .vStructO rv => "'" ++ rv ++ "'"
  | .vSlice jsonR _ => "'" ++ jsonR ++ "'"
  | .vInt n => toString n
  | .vInt64 n => toString n
  | .vFloat rv => rv
  | .vPtr rv => rv

/-- The field loop of `generateUpdate`: collects `column=value` SET
entries for non-primary, non-pointer fields and, when the caller's
fragment is still empty, turns the first primary-key field into the
WHERE fragment `column = value`. -/
def genUpdateAux : List GoField → String → List String × String
  | [], w => ([], w)
  | f :: rest, w =>
    if isPriPg f then
      genUpdateAux rest (if w = "" then f.colName ++ " = " ++ f.value.render else w)
    else if isPtrField f then genUpdateAux rest w
    else
      let p := genUpdateAux rest w
      ((f.colName ++ "=" ++ renderUpdateValue f.value) :: p.1, p.2)

/-- `generateUpdate` of the numbered dialect: the fragment is returned
verbatim when it matches the unanchored case-insensitive regexp
`DELETE (.*?) ` (note: a DELETE pattern, not an UPDATE one), otherwise
an `UPDATE table SET sets WHERE fragment` statement is synthesized. -/
def generateUpdatePg (sqlStr : String) (dest : GoStruct) : String :=
  if hasCiPat "delete ".toList sqlStr.toList then sqlStr
  else
    let p := genUpdateAux dest.fields sqlStr
    "UPDATE " ++ getTableName dest ++ " SET " ++ stringsJoin p.1 "," ++ " WHERE " ++ p.2

/-- `generateDelete` (identical in both dialect files): the fragment is
returned verbatim when it matches the unanchored case-insensitive
regexp `DELETE FROM (.*?) `, otherwise it is prefixed with
`DELETE FROM table WHERE `. -/
def generateDeleteG (sqlStr : String) (dest : GoStruct) : String :=
  if hasCiPat "delete from ".toList sqlStr.toList then sqlStr
  else "DELETE FROM " ++ getTableName dest ++ " WHERE " ++ sqlStr

/-- C8 counterexample: the fragment `DELETE FROM t` begins with the
DELETE keyword, yet `generateDelete` still prefixes it (the regexp
needs a space after the table token), and a fragment beginning with the
UPDATE keyword is not used verbatim by `generateUpdate` (whose regexp
tests for DELETE, not UPDATE). -/
theorem generateDelete_verbatim_pattern_cex :
    generateDeleteG "DELETE FROM t" ⟨"User", none, []⟩ =
      "DELETE FROM user WHERE DELETE FROM t" ∧
    generateDeleteG "DELETE FROM t" ⟨"User", none, []⟩ ≠ "DELETE FROM t" ∧
    generateUpdatePg "UPDATE user SET name='b' WHERE id=5" ⟨"User", none, []⟩ ≠
      "UPDATE user SET name='b' WHERE id=5" := by
  refine ⟨rfl, by decide, by decide⟩

/-- C8 (amended): a DELETE fragment is used verbatim exactly when it
matches, anywhere in the string (not only at its start), the
case-insensitive pattern `DELETE FROM <non-newline>* ` — otherwise the
`DELETE FROM table WHERE` prefix is synthesized; an UPDATE fragment is
used verbatim exactly when it matches the pattern `DELETE <non-newline>* `
(the code tests a DELETE pattern, not an UPDATE one), so fragments that
begin with the UPDATE keyword are still wrapped into a synthesized
`UPDATE table SET ... WHERE fragment` statement. -/
theorem generate_where_prefix_amended :
    (∀ (s : String) (d : GoStruct),
      (MatchesCiPat "delete from ".toList s.toList → generateDeleteG s d = s) ∧
      (¬ MatchesCiPat "delete from ".toList s.toList →
        generateDeleteG s d = "DELETE FROM " ++ getTableName d ++ " WHERE " ++ s)) ∧
    (∀ (s : String) (d : GoStruct),
      (MatchesCiPat "delete ".toList s.toList → generateUpdatePg s d = s) ∧
      (¬ MatchesCiPat "delete ".toList s.toList →
        generateUpdatePg s d = "UPDATE " ++ getTableName d ++ " SET " ++
          stringsJoin (genUpdateAux d.fields s).1 "," ++ " WHERE " ++
          (genUpdateAux d.fields s).2)) := by
  constructor
  · intro s d
    constructor
    · intro hm
      have h : hasCiPat "delete from ".toList s.toList = true := (hasCiPat_iff _ _).mpr hm
      unfold generateDeleteG
      rw [h]
      simp
    · intro hm
      have h : hasCiPat "delete from ".toList s.toList = false := by
        rw [← Bool.not_eq_true]
        exact fun hh => hm ((hasCiPat_iff _ _).mp hh)
      unfold generateDeleteG
      rw [h]
      simp
  · intro s d
    constructor
    · intro hm
      have h : hasCiPat "delete ".toList s.toList = true := (hasCiPat_iff _ _).mpr hm
      unfold generateUpdatePg
      rw [h]
      simp
    · intro hm
      have h : hasCiPat "delete ".toList s.toList = false := by
        rw [← Bool.not_eq_true]
        exact fun hh => hm ((hasCiPat_iff _ _).mp hh)
      unfold generateUpdatePg
      rw [h]
      simp

/-- Witness for the amended C8 theorem: a fragment containing the
DELETE pattern in its interior is used verbatim by `generateDelete`. -/
theorem generate_where_prefix_amended_witness :
    generateDeleteG "x DELETE FROM y z" ⟨"User", none, []⟩ = "x DELETE FROM y z" :=
  (generate_where_prefix_amended.1 "x DELETE FROM y z" ⟨"User", none, []⟩).1
    ⟨"x ".toList, "DELETE FROM ".toList, "y".toList, "z".toList, by decide, by decide, by decide⟩

theorem kvEntryPg_some (f : GoField) (p : String × String) (h : kvEntryPg f = some p) :
    p.1 = f.colName ∧ isPriPg f = false ∧ isPtrField f = false := by
  unfold kvEntryPg at h
  by_cases hp : isPriPg f
  · rw [if_pos hp] at h
    cases h
  · rw [if_neg hp] at h
    by_cases hq : isPtrField f
    · rw [if_pos hq] at h
      cases h
    · rw [if_neg hq] at h
      cases h
      exact ⟨rfl, by simpa using hp, by simpa using hq⟩

theorem kvEntriesPg_keys (fields : List GoField) :
    (fields.filterMap kvEntryPg).map Prod.fst =
      (fields.filter (fun f => !isPriPg f && !isPtrField f)).map GoField.colName := by
  induction fields with
  | nil => rfl
  | cons f rest ih =>
    rw [List.filterMap_cons, List.filter_cons]
    by_cases hp : isPriPg f
    · have h1 : kvEntryPg f = none := by unfold kvEntryPg; rw [if_pos hp]
      rw [h1, hp]
      simpa using ih
    · have hpb : isPriPg f = false := by simpa using hp
      by_cases hq : isPtrField f
      · have h1 : kvEntryPg f = none := by
          unfold kvEntryPg
          rw [if_neg hp, if_pos hq]
        rw [h1, hpb, hq]
        simpa using ih
      · have hqb : isPtrField f = false := by simpa using hq
        have h1 : kvEntryPg f = some (f.colName, renderInsertPg f.value) := by
          unfold kvEntryPg
          rw [if_neg hp, if_neg hq]
        rw [h1, hpb, hqb]
        simpa using ih

theorem id_not_mem_kvEntriesPg_keys (fields : List GoField) :
    "id" ∉ (fields.filterMap kvEntryPg).map Prod.fst := by
  intro hmem
  obtain ⟨p, hp, hfst⟩ := List.mem_map.mp hmem
  obtain ⟨f, hf, hent⟩ := List.mem_filterMap.mp hp
  obtain ⟨h1, h2, -⟩ := kvEntryPg_some f p hent
  have : f.colName ≠ "id" := by
    simp only [isPriPg, Bool.or_eq_false_iff, decide_eq_false_iff_not] at h2
    exact h2.1
  exact this (h1 ▸ hfst)

theorem genUpdateAux_fst (fields : List GoField) : ∀ w : String,
    (genUpdateAux fields w).1 =
      (fields.filter (fun f => !isPriPg f && !isPtrField f)).map
        (fun f => f.colName ++ "=" ++ renderUpdateValue f.value) := by
  induction fields with
  | nil => intro w; rfl
  | cons f rest ih =>
    intro w
    rw [List.filter_cons]
    by_cases hp : isPriPg f
    · have hpb : isPriPg f = true := hp
      unfold genUpdateAux
      rw [if_pos hp, hpb]
      simpa using ih _
    · have hpb : isPriPg f = false := by simpa using hp
      by_cases hq : isPtrField f
      · unfold genUpdateAux
        rw [if_neg hp, if_pos hq, hpb, hq]
        simpa using ih _
      · have hqb : isPtrField f = false := by simpa using hq
        unfold genUpdateAux
        rw [if_neg hp, if_neg hq, hpb, hqb]
        simpa using ih _

theorem genUpdateAux_snd_of_ne (fields : List GoField) : ∀ w : String, w ≠ "" →
    (genUpdateAux fields w).2 = w := by
  induction fields with
  | nil => intro w _; rfl
  | cons f rest ih =>
    intro w hw
    unfold genUpdateAux
    by_cases hp : isPriPg f
    · rw [if_pos hp, if_neg hw]
      exact ih w hw
    · rw [if_neg hp]
      by_cases hq : isPtrField f
      · rw [if_pos hq]
        exact ih w hw
      · rw [if_neg hq]
        simpa using ih w hw

theorem pk_where_ne_empty (f : GoField) : f.colName ++ " = " ++ f.value.render ≠ "" := by
  intro h
  have hlen := congrArg String.length h
  simp only [String.length_append] at hlen
  have h3 : String.length " = " = 3 := rfl
  have h0 : String.length "" = 0 := rfl
  omega

theorem genUpdateAux_snd_first_pk (f : GoField) (post : List GoField)
    (hf : isPriPg f = true) : ∀ pre : List GoField, (∀ g ∈ pre, isPriPg g = false) →
    (genUpdateAux (pre ++ f :: post) "").2 = f.colName ++ " = " ++ f.value.render := by
  intro pre
  induction pre with
  | nil =>
    intro _
    rw [List.nil_append]
    unfold genUpdateAux
    rw [if_pos hf, if_pos rfl]
    exact genUpdateAux_snd_of_ne post _ (pk_where_ne_empty f)
  | cons g pre' ih =>
    intro hpre
    have hg : isPriPg g = false := hpre g (by simp)
    have hpre' : ∀ e ∈ pre', isPriPg e = false := fun e he => hpre e (by simp [he])
    rw [List.cons_append]
    unfold genUpdateAux
    rw [if_neg (by simp [hg])]
    by_cases hq : isPtrField g
    · rw [if_pos hq]
      exact ih hpre'
    · rw [if_neg hq]
      simpa using ih hpre'

/-- C4 counterexample: in the `?` dialect, a struct whose only field is
named `Id` (column `id`) yields an INSERT whose column list is exactly
the primary-key column — `getKeysValues` of that dialect excludes
nothing, contradicting the claim that the primary-key field never
appears in the INSERT column/value lists. -/
theorem getKeysValues_my_includes_id_cex :
    (getKeysValuesMy [⟨"Id", "", "", .vInt64 5⟩]).Key = "\x60id\x60" ∧
    insertSqlMy "user" [⟨"Id", "", "", .vInt64 5⟩] =
      "INSERT INTO user(\x60id\x60) VALUES (5)" := by
  exact ⟨rfl, rfl⟩

/-- C4 (amended): in the numbered dialect, a field is excluded from the
INSERT column/value lists and from the UPDATE SET list exactly when its
derived column name (`json` tag if present, else the snake-cased
identifier) is `id` or it carries a `pri` tag — in particular the
column `id` never appears in an INSERT column list — and when the
caller's Update filter fragment is empty the WHERE clause is built as
`column = value` from the first such primary-key field.  The `?`
dialect's `getKeysValues`, however, excludes nothing: every field,
including the primary key, appears in its INSERT column list. -/
theorem primary_key_exclusion_amended :
    (∀ fields : List GoField, "id" ∉ (fields.filterMap kvEntryPg).map Prod.fst) ∧
    (∀ fields : List GoField,
      (fields.filterMap kvEntryPg).map Prod.fst =
        (fields.filter (fun f => !isPriPg f && !isPtrField f)).map GoField.colName) ∧
    (∀ (fields : List GoField) (w : String),
      (genUpdateAux fields w).1 =
        (fields.filter (fun f => !isPriPg f && !isPtrField f)).map
          (fun f => f.colName ++ "=" ++ renderUpdateValue f.value)) ∧
    (∀ (d : GoStruct) (pre : List GoField) (f : GoField) (post : List GoField),
      d.fields = pre ++ f :: post → (∀ g ∈ pre, isPriPg g = false) → isPriPg f = true →
      generateUpdatePg "" d = "UPDATE " ++ getTableName d ++ " SET " ++
        stringsJoin (genUpdateAux d.fields "").1 "," ++ " WHERE " ++
        (f.colName ++ " = " ++ f.value.render)) ∧
    (∀ fields : List GoField,
      (fields.map kvEntryMy).map Prod.fst =
        fields.map (fun f => "\x60" ++ f.colName ++ "\x60")) := by
  refine ⟨id_not_mem_kvEntriesPg_keys, kvEntriesPg_keys,
    fun fields w => genUpdateAux_fst fields w, ?_, ?_⟩
  · intro d pre f post hfields hpre hf
    have hsnd : (genUpdateAux d.fields "").2 = f.colName ++ " = " ++ f.value.render := by
      rw [hfields]
      exact genUpdateAux_snd_first_pk f post hf pre hpre
    unfold generateUpdatePg
    rw [show hasCiPat "delete ".toList "".toList = false from rfl]
    simp only [Bool.false_eq_true, if_false]
    rw [hsnd]
  · intro fields
    induction fields with
    | nil => rfl
    | cons f rest ih => simp [kvEntryMy, ih]

/-- Witness for the amended C4 theorem: a `User` row with fields
`Id, Name` yields an UPDATE whose SET list holds only `name` and whose
WHERE clause is built from the `id` column when the filter is empty. -/
theorem primary_key_exclusion_amended_witness :
    generateUpdatePg "" ⟨"User", none,
        [⟨"Id", "", "", .vInt64 7⟩, ⟨"Name", "", "", .vStr "a"⟩]⟩ =
      "UPDATE user SET name='a' WHERE id = 7" := by
  have h := primary_key_exclusion_amended.2.2.2.1
    ⟨"User", none, [⟨"Id", "", "", .vInt64 7⟩, ⟨"Name", "", "", .vStr "a"⟩]⟩
    [] ⟨"Id", "", "", .vInt64 7⟩ [⟨"Name", "", "", .vStr "a"⟩] rfl (by simp) (by decide)
  rw [h]
  rfl

/-- A variadic argument, with the reflection data `parseSqlIn`
inspects: its kind, whether it is a slice, and (for slices) its
element kind and elements. -/
inductive GoArg where
  /-- a non-slice argument of kind `reflect.Int` -/
  | aInt (n : Int)
  /-- a non-slice argument of kind `reflect.String` -/
  | aStr (s : String)
  /-- any other non-slice argument, opaque -/
  | aOther (rv : String)
  /-- a `[]string` -/
  | aSliceStr (l : List String)
  /-- a `[]int` -/
  | aSliceInt (l : List Int)
  /-- an `[]int64` -/
  | aSliceInt64 (l : List Int)
  /-- a `[]float64`, elements by their `%v` rendering -/
  | aSliceFloat (l : List String)
  /-- a slice of an element kind outside the conversion map -/
  | aSliceOther (tag : String) (len : Nat)
  deriving DecidableEq

/-- Whether the argument's kind is `reflect.Slice`. -/
def GoArg.isSlice : GoArg → Bool
  | .aSliceStr _ => true
  | .aSliceInt _ => true
  | .aSliceInt64 _ => true
  | .aSliceFloat _ => true
  | .aSliceOther _ _ => true
  | _ => false

/-- Element count of a slice argument. -/
def sliceLen : GoArg → Nat
  | .aSliceStr l => l.length
  | .aSliceInt l => l.length
  | .aSliceInt64 l => l.length
  | .aSliceFloat l => l.length
  | .aSliceOther _ n => n
  | _ => 0

/-- The `reflect.String` entry of `convertSlice2StringFuncMap`:
`'` + Join(v, "','") + `'`. -/
def convertSliceStr (l : List String) : String :=
  "'" ++ stringsJoin l "','" ++ "'"

/-- The numbered dialect's slice-argument conversion: a slice of
positive length whose element kind is in the conversion map renders to
its inline literal list; anything else contributes no pending
expansion. -/
def pendingPg : GoArg → Option String
  | .aSliceStr l => if l.length > 0 then some (convertSliceStr l) else none
  | .aSliceInt l => if l.length > 0 then some (stringsJoin (l.map toString) ",") else none
  | .aSliceInt64 l => if l.length > 0 then some (stringsJoin (l.map toString) ",") else none
  | .aSliceFloat l => if l.length > 0 then some (stringsJoin l ",") else none
  | _ => none

/-- Outcome of one `?`-dialect conversion-map call: that dialect's
`Int` and `Float64` entries perform the type assertion `.([]int64)` on
a `[]int`/`[]float64` argument, which panics. -/
inductive ConvRes where
  | panicked
  | skip
  | conv (s : String)

/-- The `?` dialect's slice-argument conversion. -/
def pendingMy : GoArg → ConvRes
  | .aSliceStr l => if l.length > 0 then .conv (convertSliceStr l) else .skip
  | .aSliceInt64 l => if l.length > 0 then .conv (stringsJoin (l.map toString) ",") else .skip
  | .aSliceInt l => if l.length > 0 then .panicked else .skip
  | .aSliceFloat l => if l.length > 0 then .panicked else .skip
  | _ => .skip

/-- The `?` dialect's pending-expansion list; `none` models the panic
escaping `parseSqlIn`. -/
def buildSliceArgsMy : List GoArg → Option (List String)
  | [] => some []
  | a :: rest =>
    match pendingMy a with
    | .panicked => none
    | .skip => buildSliceArgsMy rest
    | .conv s => (buildSliceArgsMy rest).map (fun t => s :: t)

/-- One-position matcher for the regexp `" (IN|in|In|iN) \$[0-9]*"`:
on success returns the rest of the input after the (digit-greedy)
match. -/
def matchInPg : List Char → Option (List Char)
  | a :: c1 :: c2 :: b :: d :: rest =>
    if a = ' ' ∧ (c1 = 'I' ∨ c1 = 'i') ∧ (c2 = 'N' ∨ c2 = 'n') ∧ b = ' ' ∧ d = '$' then
      some (rest.dropWhile (fun e => e.isDigit))
    else none
  | _ => none

/-- Greedy consumption of the optional `\??` placeholder. -/
def dropQm : List Char → List Char
  | '?' :: r => r
  | r => r

/-- One-position matcher for the regexp `" (IN|in|In|iN) \??"`. -/
def matchInMy : List Char → Option (List Char)
  | a :: c1 :: c2 :: b :: rest =>
    if a = ' ' ∧ (c1 = 'I' ∨ c1 = 'i') ∧ (c2 = 'N' ∨ c2 = 'n') ∧ b = ' ' then
      some (dropQm rest)
    else none
  | _ => none

/-- `regexp.ReplaceAllStringFunc`: scan left to right, replacing each
non-overlapping leftmost match of `m` with `rep idx` where `idx` counts
the matches seen so far.  `b` bounds the recursion; every call uses
`b = cs.length`, which suffices because a match consumes at least one
character. -/
def replAllB (m : List Char → Option (List Char)) (rep : Nat → String) :
    Nat → List Char → Nat → List Char
  | 0, cs, _ => cs
  | _ + 1, [], _ => []
  | b + 1, c :: rest, i =>
    match m (c :: rest) with
    | some rem => (rep i).toList ++ replAllB m rep b rem (i + 1)
    | none => c :: replAllB m rep b rest i

/-- Number of matches the same scan finds. -/
def countInB (m : List Char → Option (List Char)) : Nat → List Char → Nat
  | 0, _ => 0
  | _ + 1, [] => 0
  | b + 1, c :: rest =>
    match m (c :: rest) with
    | some rem => 1 + countInB m b rem
    | none => countInB m b rest

/-- Number of `IN`-placeholder occurrences in a SQL text. -/
def countIn (m : List Char → Option (List Char)) (cs : List Char) : Nat :=
  countInB m cs.length cs

/-- The numbered dialect's replacement callback: the next pending
expansion when one is left (giving `" IN (list)"`), else the bare
`" IN "`. -/
def repPg (sliceArgs : List String) (idx : Nat) : String :=
  let arg := sliceArgs.getD idx ""
  if arg = "" then " IN " else " IN (" ++ arg ++ ")"

/-- The `?` dialect's replacement callback: always parenthesizes, even
when the pending expansions have run out (giving `" IN ()"`). -/
def repMy (sliceArgs : List String) (idx : Nat) : String :=
  " IN (" ++ sliceArgs.getD idx "" ++ ")"

/-- `parseSqlIn` of the numbered dialect. -/
def parseSqlInPg (sqlStr : String) (args : List GoArg) : String × List GoArg :=
  let sliceArgs := args.filterMap pendingPg
  let newArgs := args.filter (fun a => !a.isSlice)
  (String.mk (replAllB matchInPg (repPg sliceArgs) sqlStr.toList.length sqlStr.toList 0),
    newArgs)

/-- `parseSqlIn` of the `?` dialect; `none` models the panic of its
mis-asserting `Int`/`Float64` conversion entries. -/
def parseSqlInMy (sqlStr : String) (args : List GoArg) : Option (String × List GoArg) :=
  match buildSliceArgsMy args with
  | none => none
  | some sliceArgs =>
    some (String.mk (replAllB matchInMy (repMy sliceArgs) sqlStr.toList.length sqlStr.toList 0),
      args.filter (fun a => !a.isSlice))

theorem dropQm_len (l : List Char) : (dropQm l).length ≤ l.length := by
  unfold dropQm
  split
  · simp
  · simp

theorem length_dropWhile_le (p : Char → Bool) (l : List Char) :
    (l.dropWhile p).length ≤ l.length := by
  induction l with
  | nil => simp [List.dropWhile]
  | cons c r ih =>
    rw [List.dropWhile_cons]
    by_cases h : p c
    · simp only [h, if_true, List.length_cons]
      omega
    · simp [h]

theorem matchInPg_shrink : ∀ l rem, matchInPg l = some rem → rem.length < l.length := by
  intro l rem h
  match l with
  | [] => simp [matchInPg] at h
  | [a] => simp [matchInPg] at h
  | [a, c1] => simp [matchInPg] at h
  | [a, c1, c2] => simp [matchInPg] at h
  | [a, c1, c2, b] => simp [matchInPg] at h
  | a :: c1 :: c2 :: b :: d :: rest =>
    simp only [matchInPg] at h
    by_cases hcond : a = ' ' ∧ (c1 = 'I' ∨ c1 = 'i') ∧ (c2 = 'N' ∨ c2 = 'n') ∧ b = ' ' ∧ d = '$'
    · rw [if_pos hcond] at h
      injection h with h1
      have := length_dropWhile_le (fun e => e.isDigit) rest
      simp only [List.length_cons, ← h1]
      omega
    · rw [if_neg hcond] at h
      cases h

theorem matchInMy_shrink : ∀ l rem, matchInMy l = some rem → rem.length < l.length := by
  intro l rem h
  match l with
  | [] => simp [matchInMy] at h
  | [a] => simp [matchInMy] at h
  | [a, c1] => simp [matchInMy] at h
  | [a, c1, c2] => simp [matchInMy] at h
  | a :: c1 :: c2 :: b :: rest =>
    simp only [matchInMy] at h
    by_cases hcond : a = ' ' ∧ (c1 = 'I' ∨ c1 = 'i') ∧ (c2 = 'N' ∨ c2 = 'n') ∧ b = ' '
    · rw [if_pos hcond] at h
      injection h with h1
      have := dropQm_len rest
      simp only [List.length_cons, ← h1]
      omega
    · rw [if_neg hcond] at h
      cases h

/-- Modelled from the spec: replace every match with the fixed text
`bare` — what "each IN occurrence is left as a bare IN keyword" (or, in
the `?` dialect, as `IN ()`) describes. -/
def bareAllB (bare : List Char) (m : List Char → Option (List Char)) :
    Nat → List Char → List Char
  | 0, cs => cs
  | _ + 1, [] => []
  | b + 1, c :: rest =>
    match m (c :: rest) with
    | some rem => bare ++ bareAllB bare m b rem
    | none => c :: bareAllB bare m b rest

theorem replAllB_count_zero (m : List Char → Option (List Char))
    (_hm : ∀ l r, m l = some r → r.length < l.length) (rep : Nat → String) :
    ∀ b cs i, cs.length ≤ b → countInB m b cs = 0 → replAllB m rep b cs i = cs := by
  intro b
  induction b with
  | zero => intro cs i _ _; rfl
  | succ b ih =>
    intro cs i h hc
    cases cs with
    | nil => rfl
    | cons c rest =>
      rw [List.length_cons] at h
      cases hm2 : m (c :: rest) with
      | some rem =>
        simp only [countInB, hm2] at hc
        omega
      | none =>
        simp only [countInB, hm2] at hc
        simp only [replAllB, hm2]
        rw [ih rest i (by omega) hc]

theorem replAllB_count_one (m : List Char → Option (List Char))
    (hm : ∀ l r, m l = some r → r.length < l.length) (rep : Nat → String) :
    ∀ b cs i, cs.length ≤ b → countInB m b cs = 1 →
      ∃ pre post, replAllB m rep b cs i = pre ++ (rep i).toList ++ post := by
  intro b
  induction b with
  | zero => intro cs i _ hc; cases hc
  | succ b ih =>
    intro cs i h hc
    cases cs with
    | nil => cases hc
    | cons c rest =>
      rw [List.length_cons] at h
      cases hm2 : m (c :: rest) with
      | some rem =>
        simp only [countInB, hm2] at hc
        have hrem : rem.length ≤ b := by
          have := hm _ _ hm2
          simp only [List.length_cons] at this
          omega
        have hc0 : countInB m b rem = 0 := by omega
        refine ⟨[], rem, ?_⟩
        simp only [replAllB, hm2]
        rw [replAllB_count_zero m hm rep b rem (i + 1) hrem hc0]
        simp
      | none =>
        simp only [countInB, hm2] at hc
        obtain ⟨pre, post, hp⟩ := ih rest i (by omega) hc
        refine ⟨c :: pre, post, ?_⟩
        simp only [replAllB, hm2]
        rw [hp]
        simp

theorem replAllB_exhausted (m : List Char → Option (List Char)) (bare : String)
    (rep : List String → Nat → String)
    (hrep : ∀ (s : List String) (i : Nat), s.length ≤ i → rep s i = bare) :
    ∀ b cs (s : List String) i, s.length ≤ i →
      replAllB m (rep s) b cs i = bareAllB bare.toList m b cs := by
  intro b
  induction b with
  | zero => intro cs s i _; rfl
  | succ b ih =>
    intro cs s i hi
    cases cs with
    | nil => rfl
    | cons c rest =>
      cases hm2 : m (c :: rest) with
      | some rem =>
        simp only [replAllB, bareAllB, hm2]
        rw [hrep s i hi, ih rem s (i + 1) (by omega)]
      | none =>
        simp only [replAllB, bareAllB, hm2]
        rw [ih rest s i hi]

/-- C6 counterexample: in the `?` dialect a bare-IN SQL text with no
pending expansions rewrites to `IN ()` — an empty parenthesized list,
not a bare `IN` keyword as the claim states. -/
theorem parseSqlIn_my_empty_parens_cex :
    parseSqlInMy "x IN ?" [] = some ("x IN ()", []) ∧
    '(' ∈ ("x IN ()").toList := by
  exact ⟨rfl, by decide⟩

/-- C6 (amended): once the pending sequence-argument expansions are
exhausted, every further IN-placeholder occurrence is rewritten the
same fixed way, but the two dialects differ: the numbered dialect
leaves the keyword bare (` IN `) while the `?` dialect emits an empty
parenthesized list (` IN ()`); neither raises an error. -/
theorem in_exhausted_expansion_amended :
    (∀ b cs (s : List String) i, s.length ≤ i →
      replAllB matchInPg (repPg s) b cs i = bareAllB " IN ".toList matchInPg b cs) ∧
    (∀ b cs (s : List String) i, s.length ≤ i →
      replAllB matchInMy (repMy s) b cs i = bareAllB " IN ()".toList matchInMy b cs) ∧
    (∀ sqlStr : String,
      (parseSqlInPg sqlStr []).1.toList =
        bareAllB " IN ".toList matchInPg sqlStr.toList.length sqlStr.toList ∧
      (parseSqlInMy sqlStr []).map (fun p => p.1.toList) =
        some (bareAllB " IN ()".toList matchInMy sqlStr.toList.length sqlStr.toList)) := by
  have hpg : ∀ (s : List String) (i : Nat), s.length ≤ i → repPg s i = " IN " := by
    intro s i hi
    unfold repPg
    rw [List.getD_eq_default _ _ hi]
    rfl
  have hmy : ∀ (s : List String) (i : Nat), s.length ≤ i → repMy s i = " IN ()" := by
    intro s i hi
    unfold repMy
    rw [List.getD_eq_default _ _ hi]
    rfl
  refine ⟨replAllB_exhausted matchInPg " IN " repPg hpg,
    replAllB_exhausted matchInMy " IN ()" repMy hmy, ?_⟩
  intro sqlStr
  constructor
  · exact replAllB_exhausted matchInPg " IN " repPg hpg
      sqlStr.toList.length sqlStr.toList [] 0 (Nat.le_refl 0)
  · show some (replAllB matchInMy (repMy []) sqlStr.toList.length sqlStr.toList 0) =
      some (bareAllB " IN ()".toList matchInMy sqlStr.toList.length sqlStr.toList)
    exact congrArg some (replAllB_exhausted matchInMy " IN ()" repMy hmy
      sqlStr.toList.length sqlStr.toList [] 0 (Nat.le_refl 0))

/-- Witness for the amended C6 theorem: with no pending expansions the
numbered dialect leaves ` IN $1` as a bare ` IN `. -/
theorem in_exhausted_expansion_amended_witness :
    replAllB matchInPg (repPg []) 9 "id IN $1;".toList 0 =
      bareAllB " IN ".toList matchInPg 9 "id IN $1;".toList :=
  in_exhausted_expansion_amended.1 9 "id IN $1;".toList [] 0 (by decide)

/-- The single-quoted rendering of one string element. -/
def quote1 (s : String) : String := "'" ++ s ++ "'"

theorem quote_join (l : List String) : l ≠ [] →
    convertSliceStr l = stringsJoin (l.map quote1) "," := by
  induction l with
  | nil => intro h; cases h rfl
  | cons x rest ih =>
    intro _
    cases rest with
    | nil => rfl
    | cons y rest' =>
      have ihne : stringsJoin ((y :: rest').map quote1) "," =
          "'" ++ stringsJoin (y :: rest') "','" ++ "'" := (ih (by simp)).symm
      show "'" ++ (x ++ "','" ++ stringsJoin (y :: rest') "','") ++ "'" =
        ("'" ++ x ++ "'") ++ "," ++ stringsJoin ((y :: rest').map quote1) ","
      rw [ihne, show ("','" : String) = "'" ++ "," ++ "'" from rfl]
      simp only [String.append_assoc]

theorem stringsJoin_ne_empty (l : List String) (sep : String) :
    l ≠ [] → (∀ s ∈ l, s ≠ "") → stringsJoin l sep ≠ "" := by
  induction l with
  | nil => intro h; cases h rfl
  | cons x rest _ =>
    intro _ hall
    cases rest with
    | nil => simpa [stringsJoin] using hall x (by simp)
    | cons y t =>
      intro hEq
      have hx := hall x (by simp)
      have hlen := congrArg String.length hEq
      simp only [stringsJoin, String.length_append] at hlen
      have h0 : String.length "" = 0 := rfl
      have hx0 : x.data.length = 0 := by
        have hxl : x.length = x.data.length := rfl
        omega
      exact hx (String.ext (List.length_eq_zero.mp hx0))

/-- The per-element literal list the claim describes for the numbered
dialect: string elements quoted, numeric elements bare. -/
def sliceLitsPg : GoArg → Option (List String)
  | .aSliceStr l => if l.length > 0 then some (l.map quote1) else none
  | .aSliceInt l => if l.length > 0 then some (l.map toString) else none
  | .aSliceInt64 l => if l.length > 0 then some (l.map toString) else none
  | .aSliceFloat l => if l.length > 0 then some l else none
  | _ => none

/-- The per-element literal list for the `?` dialect: only `[]string`
and `[]int64` survive its conversion map without panicking. -/
def sliceLitsMy : GoArg → Option (List String)
  | .aSliceStr l => if l.length > 0 then some (l.map quote1) else none
  | .aSliceInt64 l => if l.length > 0 then some (l.map toString) else none
  | _ => none

theorem sliceLitsPg_pending (a : GoArg) (lits : List String)
    (h : sliceLitsPg a = some lits) :
    pendingPg a = some (stringsJoin lits ",") ∧ lits.length = sliceLen a ∧
      lits ≠ [] ∧ a.isSlice = true := by
  cases a with
  | aSliceStr l =>
    simp only [sliceLitsPg] at h
    by_cases hl : l.length > 0
    · rw [if_pos hl] at h
      injection h with h1
      subst h1
      refine ⟨?_, by simp [sliceLen], by rw [Ne, List.map_eq_nil_iff]; intro he; subst he; simp at hl, rfl⟩
      simp only [pendingPg, if_pos hl]
      rw [quote_join l (by intro he; subst he; simp at hl)]
    · rw [if_neg hl] at h; cases h
  | aSliceInt l =>
    simp only [sliceLitsPg] at h
    by_cases hl : l.length > 0
    · rw [if_pos hl] at h
      injection h with h1
      subst h1
      exact ⟨by simp [pendingPg, if_pos hl], by simp [sliceLen],
        by rw [Ne, List.map_eq_nil_iff]; intro he; subst he; simp at hl, rfl⟩
    · rw [if_neg hl] at h; cases h
  | aSliceInt64 l =>
    simp only [sliceLitsPg] at h
    by_cases hl : l.length > 0
    · rw [if_pos hl] at h
      injection h with h1
      subst h1
      exact ⟨by simp [pendingPg, if_pos hl], by simp [sliceLen],
        by rw [Ne, List.map_eq_nil_iff]; intro he; subst he; simp at hl, rfl⟩
    · rw [if_neg hl] at h; cases h
  | aSliceFloat l =>
    simp only [sliceLitsPg] at h
    by_cases hl : l.length > 0
    · rw [if_pos hl] at h
      injection h with h1
      subst h1
      exact ⟨by simp [pendingPg, if_pos hl], by simp [sliceLen], by intro he; subst he; simp at hl, rfl⟩
    · rw [if_neg hl] at h; cases h
  | aInt n => cases h
  | aStr s => cases h
  | aOther rv => cases h
  | aSliceOther t n => cases h

theorem sliceLitsMy_pending (a : GoArg) (lits : List String)
    (h : sliceLitsMy a = some lits) :
    pendingMy a = .conv (stringsJoin lits ",") ∧ lits.length = sliceLen a ∧
      a.isSlice = true := by
  cases a with
  | aSliceStr l =>
    simp only [sliceLitsMy] at h
    by_cases hl : l.length > 0
    · rw [if_pos hl] at h
      injection h with h1
      subst h1
      refine ⟨?_, by simp [sliceLen], rfl⟩
      simp only [pendingMy, if_pos hl]
      rw [quote_join l (by intro he; subst he; simp at hl)]
    · rw [if_neg hl] at h; cases h
  | aSliceInt64 l =>
    simp only [sliceLitsMy] at h
    by_cases hl : l.length > 0
    · rw [if_pos hl] at h
      injection h with h1
      subst h1
      exact ⟨by simp [pendingMy, if_pos hl], by simp [sliceLen], rfl⟩
    · rw [if_neg hl] at h; cases h
  | aInt n => cases h
  | aStr s => cases h
  | aOther rv => cases h
  | aSliceInt l => cases h
  | aSliceFloat l => cases h
  | aSliceOther t n => cases h

/-- C2 counterexample: the `?` dialect's conversion map asserts
`[]int64` in its `reflect.Int` entry, so a `[]int` argument panics
(`none` here) instead of producing a statement, while the numbered
dialect rewrites the concrete scenario of the spec as claimed. -/
theorem parseSqlIn_my_int_slice_panics_cex :
    parseSqlInMy "SELECT * FROM user WHERE id IN ?" [.aSliceInt [1, 2, 3]] = none ∧
    parseSqlInPg "SELECT * FROM user WHERE id IN $1" [.aSliceInt64 [1, 2, 3]] =
      ("SELECT * FROM user WHERE id IN (1,2,3)", []) := by
  exact ⟨rfl, rfl⟩

/-- C2 (amended): for every SQL string with exactly one IN placeholder
and exactly one sequence argument of length K > 0, the numbered dialect
(for all four supported element kinds: string, int, int64, float64) and
the `?` dialect (only for string and int64 element kinds — its int and
float64 entries panic on a mis-asserted type) produce a statement
containing the parenthesized comma-joined literal list of exactly K
elements, with the sequence removed from the positional-argument
list. -/
theorem parseSqlIn_single_in_expansion_amended :
    (∀ (sqlStr : String) (a : GoArg) (lits : List String),
      sliceLitsPg a = some lits → (∀ s ∈ lits, s ≠ "") →
      countIn matchInPg sqlStr.toList = 1 →
      (parseSqlInPg sqlStr [a]).2 = [] ∧ lits.length = sliceLen a ∧
      ∃ pre post, (parseSqlInPg sqlStr [a]).1.toList =
        pre ++ (" IN (" ++ stringsJoin lits "," ++ ")").toList ++ post) ∧
    (∀ (sqlStr : String) (a : GoArg) (lits : List String),
      sliceLitsMy a = some lits → countIn matchInMy sqlStr.toList = 1 →
      ∃ out, parseSqlInMy sqlStr [a] = some (out, []) ∧ lits.length = sliceLen a ∧
        ∃ pre post, out.toList =
          pre ++ (" IN (" ++ stringsJoin lits "," ++ ")").toList ++ post) := by
  constructor
  · intro sqlStr a lits hlits hne hcount
    obtain ⟨hpend, hlen, hlne, hslice⟩ := sliceLitsPg_pending a lits hlits
    set v := stringsJoin lits "," with hv
    have hvne : v ≠ "" := stringsJoin_ne_empty lits "," hlne hne
    have hfm : ([a].filterMap pendingPg) = [v] := by
      simp [List.filterMap_cons, hpend]
    have hfilter : ([a].filter (fun x => !x.isSlice)) = [] := by
      simp [List.filter_cons, hslice]
    refine ⟨?_, hlen, ?_⟩
    · show ([a].filter (fun x => !x.isSlice)) = []
      exact hfilter
    · have hrep0 : repPg [v] 0 = " IN (" ++ v ++ ")" := by
        unfold repPg
        simp [hvne]
      have h1 : (parseSqlInPg sqlStr [a]).1.toList =
          replAllB matchInPg (repPg [v]) sqlStr.toList.length sqlStr.toList 0 := by
        show (String.mk (replAllB matchInPg (repPg ([a].filterMap pendingPg))
            sqlStr.toList.length sqlStr.toList 0)).toList = _
        rw [hfm]
        rfl
      obtain ⟨pre, post, hp⟩ := replAllB_count_one matchInPg matchInPg_shrink (repPg [v])
        sqlStr.toList.length sqlStr.toList 0 (Nat.le_refl _) hcount
      refine ⟨pre, post, ?_⟩
      rw [h1, hp, hrep0]
  · intro sqlStr a lits hlits hcount
    obtain ⟨hpend, hlen, hslice⟩ := sliceLitsMy_pending a lits hlits
    set v := stringsJoin lits "," with hv
    have hbuild : buildSliceArgsMy [a] = some [v] := by
      simp [buildSliceArgsMy, hpend]
    have hout : parseSqlInMy sqlStr [a] =
        some (String.mk (replAllB matchInMy (repMy [v]) sqlStr.toList.length sqlStr.toList 0),
          [a].filter (fun x => !x.isSlice)) := by
      unfold parseSqlInMy
      rw [hbuild]
    have hfilter : ([a].filter (fun x => !x.isSlice)) = [] := by
      simp [List.filter_cons, hslice]
    refine ⟨String.mk (replAllB matchInMy (repMy [v]) sqlStr.toList.length sqlStr.toList 0),
      ?_, hlen, ?_⟩
    · rw [hout, hfilter]
    · have hrep0 : repMy [v] 0 = " IN (" ++ v ++ ")" := rfl
      obtain ⟨pre, post, hp⟩ := replAllB_count_one matchInMy matchInMy_shrink (repMy [v])
        sqlStr.toList.length sqlStr.toList 0 (Nat.le_refl _) hcount
      refine ⟨pre, post, ?_⟩
      show replAllB matchInMy (repMy [v]) sqlStr.toList.length sqlStr.toList 0 = _
      rw [hp, hrep0]

/-- Witness for the amended C2 theorem at the spec's concrete scenario
restricted to two elements. -/
theorem parseSqlIn_single_in_expansion_amended_witness :
    (parseSqlInPg "SELECT * FROM t WHERE id IN $1" [.aSliceInt64 [1, 2]]).2 = [] ∧
    (["1", "2"] : List String).length = sliceLen (.aSliceInt64 [1, 2]) ∧
    ∃ pre post,
      (parseSqlInPg "SELECT * FROM t WHERE id IN $1" [.aSliceInt64 [1, 2]]).1.toList =
        pre ++ (" IN (" ++ stringsJoin ["1", "2"] "," ++ ")").toList ++ post :=
  parseSqlIn_single_in_expansion_amended.1 "SELECT * FROM t WHERE id IN $1"
    (.aSliceInt64 [1, 2]) ["1", "2"] (by decide) (by decide) (by decide)

/-- A result set as the driver cursor exposes it: column names and the
rows' values (opaque renderings, one per column). -/
structure ResultSet where
  columns : List String
  rows : List (List String)
  deriving DecidableEq

/-- A single-struct destination: the struct type's
(identifier, `json` tag) pairs and the current field values (opaque
renderings; `""` stands for a freshly allocated zero value). -/
structure StructDest where
  fields : List (String × String)
  values : List String
  deriving DecidableEq

/-- The unmarshal paths' column tag for a field: `json` tag, or the
snake-cased identifier when the tag is empty. -/
def fieldTag (f : String × String) : String :=
  if f.2 = "" then toSnake f.1 else f.2

/-- The `fieldsMap` built by the unmarshal paths: a Go map written in
field order, so for duplicate tags the last field index wins. -/
def lookupField (fields : List (String × String)) (col : String) : Option Nat :=
  fields.enum.foldl (fun acc p => if fieldTag p.2 = col then some p.1 else acc) none

/-- `rows.Scan(receivers...)`: database/sql errors unless exactly one
receiver per column is supplied; on success each receiver takes the
corresponding column value of the current row. -/
def scanRow (ncols : Nat) (receivers : List String) (row : List String) :
    Except String (List String) :=
  if receivers.length = ncols then .ok (row.take receivers.length)
  else .error "sql: expected destination arguments in Scan"

/-- The `for rows.Next() { rows.Scan(values...) }` loop of the
numbered-dialect `unmarshalStruct`: every row is scanned into the same
receivers, so the last row's values survive. -/
def scanAll (ncols : Nat) : List String → List (List String) → Except String (List String)
  | vals, [] => .ok vals
  | vals, row :: rest =>
    match scanRow ncols vals row with
    | .error e => .error e
    | .ok vals2 => scanAll ncols vals2 rest

/-- The final copy loop: write receiver values back into the struct
fields selected by the matched column indices. -/
def writeBack : List String → List Nat → List String → List String
  | vals, i :: is, v :: vs => writeBack (vals.set i v) is vs
  | vals, _, _ => vals

/-- `unmarshalStruct` of the numbered dialect: receivers for the
columns present in the fields map, a scan per row (last row wins), then
one copy into the destination struct. -/
def unmarshalStructPg (rs : ResultSet) (dest : StructDest) : Except String StructDest :=
  let idxs := rs.columns.filterMap (lookupField dest.fields)
  let init : List String := idxs.map (fun _ => "")
  match scanAll rs.columns.length init rs.rows with
  | .error e => .error e
  | .ok finalVals => .ok ⟨dest.fields, writeBack dest.values idxs finalVals⟩

/-- `unmarshalStruct` of the `?` dialect: a single `rows.Next()` and
one `Scan`, so only the first row is read; with zero rows the cursor is
closed and `Scan` yields the driver error. -/
def unmarshalStructMy (rs : ResultSet) (dest : StructDest) : Except String StructDest :=
  let idxs := rs.columns.filterMap (lookupField dest.fields)
  let init : List String := idxs.map (fun _ => "")
  match rs.rows with
  | [] => .error "sql: Rows are closed"
  | row :: _ =>
    match scanRow rs.columns.length init row with
    | .error e => .error e
    | .ok vals => .ok ⟨dest.fields, writeBack dest.values idxs vals⟩

/-- `unmarshalNumOrStr` (same behavior in both dialect files): one
`rows.Next()` whose result is ignored, then `rows.Scan(dest)` — with
zero rows the cursor is already closed and the driver's Scan error is
returned; extra rows are ignored. -/
def unmarshalNumOrStrG (rs : ResultSet) (dest : String) : Except String String :=
  match rs.rows with
  | [] => .error "sql: Rows are closed"
  | row :: _ =>
    if rs.columns.length = 1 then .ok (row.headD dest)
    else .error "sql: expected destination arguments in Scan"

/-- The row loop of `unmarshalSlice`: scan into the shared receivers,
copy matched fields over the shared zero-valued meta struct, append a
copy of it. -/
def unmarshalSliceAux (ncols : Nat) (idxs : List Nat) (zero : List String) :
    List String → List (List String) → List (List String) →
      Except String (List (List String))
  | _, acc, [] => .ok acc
  | recv, acc, row :: rest =>
    match scanRow ncols recv row with
    | .error e => .error e
    | .ok vals => unmarshalSliceAux ncols idxs zero vals (acc ++ [writeBack zero idxs vals]) rest

/-- `unmarshalSlice` of the numbered dialect (the `?` dialect's copy is
textually identical): one element appended per row, in row order. -/
def unmarshalSlicePg (rs : ResultSet) (fields : List (String × String))
    (dest : List (List String)) : Except String (List (List String)) :=
  let idxs := rs.columns.filterMap (lookupField fields)
  let init : List String := idxs.map (fun _ => "")
  let zero : List String := fields.map (fun _ => "")
  unmarshalSliceAux rs.columns.length idxs zero init dest rs.rows

theorem scanAll_last (ncols : Nat) :
    ∀ (rows : List (List String)) (vals last : List String),
      vals.length = ncols → (∀ r ∈ rows, r.length = ncols) →
      rows.getLast? = some last → scanAll ncols vals rows = .ok last := by
  intro rows
  induction rows with
  | nil => intro vals last _ _ hlast; cases hlast
  | cons x rest ih =>
    intro vals last hv hall hlast
    have hx : x.length = ncols := hall x (by simp)
    have hscan : scanRow ncols vals x = .ok x := by
      unfold scanRow
      rw [if_pos hv, hv, ← hx, List.take_length]
    cases rest with
    | nil =>
      simp only [List.getLast?_singleton, Option.some.injEq] at hlast
      subst hlast
      simp only [scanAll, hscan]
    | cons y t =>
      rw [List.getLast?_cons_cons] at hlast
      simp only [scanAll, hscan]
      exact ih x last hx (fun r hr => hall r (by simp [hr])) hlast

/-- C7 counterexample: on a two-row result set the `?` dialect's
`unmarshalStruct` scans only the first row, so the destination holds
the first row's values, not the final row's. -/
theorem unmarshalStruct_my_first_row_cex :
    unmarshalStructMy ⟨["id"], [["1"], ["2"]]⟩ ⟨[("Id", "")], ["0"]⟩ =
      .ok ⟨[("Id", "")], ["1"]⟩ ∧
    unmarshalStructMy ⟨["id"], [["1"], ["2"]]⟩ ⟨[("Id", "")], ["0"]⟩ ≠
      .ok ⟨[("Id", "")], ["2"]⟩ ∧
    unmarshalStructPg ⟨["id"], [["1"], ["2"]]⟩ ⟨[("Id", "")], ["0"]⟩ =
      .ok ⟨[("Id", "")], ["2"]⟩ := by
  refine ⟨rfl, ?_, rfl⟩
  intro h
  have h2 : (["1"] : List String) = ["2"] :=
    congrArg (fun r : Except String StructDest =>
      match r with
      | .ok d => d.values
      | .error _ => []) h
  exact absurd h2 (by decide)

/-- C7 (amended): when every result column maps to a struct field and
the rows are well-formed, the numbered dialect's `unmarshalStruct`
scans every row and the destination ends up holding the final row's
values (last-row-wins); the `?` dialect's `unmarshalStruct` scans only
the first row, so its destination holds the first row's values. -/
theorem unmarshalStruct_row_policy_amended :
    (∀ (rs : ResultSet) (dest : StructDest) (last : List String),
      ((rs.columns.filterMap (lookupField dest.fields)).length = rs.columns.length) →
      (∀ r ∈ rs.rows, r.length = rs.columns.length) →
      rs.rows.getLast? = some last →
      unmarshalStructPg rs dest = .ok ⟨dest.fields,
        writeBack dest.values (rs.columns.filterMap (lookupField dest.fields)) last⟩) ∧
    (∀ (rs : ResultSet) (dest : StructDest) (first : List String) (rest : List (List String)),
      ((rs.columns.filterMap (lookupField dest.fields)).length = rs.columns.length) →
      rs.rows = first :: rest → first.length = rs.columns.length →
      unmarshalStructMy rs dest = .ok ⟨dest.fields,
        writeBack dest.values (rs.columns.filterMap (lookupField dest.fields)) first⟩) := by
  constructor
  · intro rs dest last hmatch hwf hlast
    have hinit : ((rs.columns.filterMap (lookupField dest.fields)).map
        (fun _ => "")).length = rs.columns.length := by
      rw [List.length_map]; exact hmatch
    simp only [unmarshalStructPg]
    rw [scanAll_last rs.columns.length rs.rows _ last hinit hwf hlast]
  · intro rs dest first rest hmatch hrows hfirst
    have hinit : ((rs.columns.filterMap (lookupField dest.fields)).map
        (fun _ => "")).length = rs.columns.length := by
      rw [List.length_map]; exact hmatch
    have hscan : scanRow rs.columns.length
        ((rs.columns.filterMap (lookupField dest.fields)).map (fun _ => "")) first =
          .ok first := by
      unfold scanRow
      rw [if_pos hinit, hinit, ← hfirst, List.take_length]
    simp only [unmarshalStructMy]
    rw [hrows]
    simp only [hscan]

/-- Witness for the amended C7 theorem on a concrete two-row result
set: the numbered dialect keeps the final row. -/
theorem unmarshalStruct_row_policy_amended_witness :
    unmarshalStructPg ⟨["id"], [["1"], ["2"]]⟩ ⟨[("Id", "")], ["0"]⟩ =
      .ok ⟨[("Id", "")], writeBack ["0"]
        ((["id"] : List String).filterMap (lookupField [("Id", "")])) ["2"]⟩ :=
  unmarshalStruct_row_policy_amended.1 ⟨["id"], [["1"], ["2"]]⟩ ⟨[("Id", "")], ["0"]⟩
    ["2"] (by decide) (by decide) (by decide)

/-- The `reflect.Kind`s the engine distinguishes. -/
inductive RKind where
  | rStruct
  | rSlice
  | rInt
  | rInt64
  | rFloat64
  | rString
  | rBool
  | rPointer
  deriving DecidableEq

/-- The `allows` list of the source. -/
def allows : List RKind :=
  [.rStruct, .rSlice, .rInt, .rInt64, .rString, .rFloat64]

/-- The fixed `ErrAllow` message. -/
def ErrAllow : String :=
  "query: allow list: reflect.Struct/reflect.Slice/reflect.Int/reflect.Int64/reflect.String/reflect.Float64"

/-- A destination value for `Query`'s generic parameter, by kind. -/
inductive Dest where
  /-- a struct destination -/
  | dStruct (d : StructDest)
  /-- a scalar destination (`k` one of the number/string kinds), with
  its zero value -/
  | dScalar (k : RKind) (v : String)
  /-- a slice-of-struct destination -/
  | dSliceD (fields : List (String × String)) (elems : List (List String))
  /-- a destination of any other kind -/
  | dOther (k : RKind)
  deriving DecidableEq

/-- The destination's `reflect.Kind`. -/
def Dest.kind : Dest → RKind
  | .dStruct _ => .rStruct
  | .dScalar k _ => k
  | .dSliceD _ _ => .rSlice
  | .dOther k => k

/-- A statement-level operation issued against the database handle. -/
inductive DbOp where
  | prepare (sql : String)
  | query (args : List GoArg)
  deriving DecidableEq

/-- The driver's nondeterminism for one `Query` call: whether prepare
and query fail, and the result set returned on success. -/
structure QueryDb where
  prepareErr : Option String
  queryErr : Option String
  rs : ResultSet

/-- `Query` of the numbered dialect: rewrite IN placeholders, prepare,
query, and only then check the destination kind against the allow list
before dispatching to the unmarshaller.  The second component records
the statement operations issued, in order.  (On an unmarshal error the
Go function returns the partially filled destination together with the
error; the model keeps only the error.) -/
def queryModelPg (db : QueryDb) (dest : Dest) (sqlStr : String) (args : List GoArg) :
    Except String Dest × List DbOp :=
  let p := parseSqlInPg sqlStr args
  match db.prepareErr with
  | some e => (.error e, [.prepare p.1])
  | none =>
    match db.queryErr with
    | some e => (.error e, [.prepare p.1, .query p.2])
    | none =>
      if allows.contains dest.kind then
        (match dest with
          | .dStruct d => (unmarshalStructPg db.rs d).map Dest.dStruct
          | .dScalar k v => (unmarshalNumOrStrG db.rs v).map (Dest.dScalar k)
          | .dSliceD fields elems =>
            (unmarshalSlicePg db.rs fields elems).map (Dest.dSliceD fields)
          | .dOther k => .ok (.dOther k),
         [.prepare p.1, .query p.2])
      else (.error ErrAllow, [.prepare p.1, .query p.2])

/-- C5 counterexample: for a destination of kind `reflect.Bool` the
allow-list error is returned only after one statement has been prepared
and one query issued — not before, as the claim states. -/
theorem query_allowlist_error_after_query_cex :
    queryModelPg ⟨none, none, ⟨["c"], []⟩⟩ (.dOther .rBool) "SELECT 1" [] =
      (.error ErrAllow, [.prepare "SELECT 1", .query []]) ∧
    ([DbOp.prepare "SELECT 1", DbOp.query []] : List DbOp) ≠ [] := by
  exact ⟨rfl, by decide⟩

/-- C5 (amended): `Query` always prepares the rewritten statement and,
when prepare succeeds, issues exactly one query — regardless of the
destination kind; the allow-list check runs only after both, so for a
kind outside the allow list the fixed `ErrAllow` error is returned
after one prepare and one query have already been issued. -/
theorem query_allowlist_after_execute_amended :
    ∀ (db : QueryDb) (dest : Dest) (sqlStr : String) (args : List GoArg),
      db.prepareErr = none → db.queryErr = none →
      (queryModelPg db dest sqlStr args).2 =
        [.prepare (parseSqlInPg sqlStr args).1, .query (parseSqlInPg sqlStr args).2] ∧
      (allows.contains dest.kind = false →
        (queryModelPg db dest sqlStr args).1 = .error ErrAllow) ∧
      (∀ e, db.prepareErr = some e →
        (queryModelPg db dest sqlStr args).2 = [.prepare (parseSqlInPg sqlStr args).1]) := by
  intro db dest sqlStr args h1 h2
  refine ⟨?_, ?_, ?_⟩
  · simp only [queryModelPg, h1, h2]
    by_cases hk : allows.contains dest.kind
    · rw [if_pos hk]
    · rw [if_neg hk]
  · intro hk
    simp only [queryModelPg, h1, h2]
    rw [if_neg (by rw [hk]; exact Bool.false_ne_true)]
  · intro e he
    rw [h1] at he
    cases he

/-- Witness for the amended C5 theorem at a concrete bool-kinded
destination. -/
theorem query_allowlist_after_execute_amended_witness :
    (queryModelPg ⟨none, none, ⟨["c"], []⟩⟩ (.dOther .rBool) "SELECT 1" []).2 =
      [.prepare (parseSqlInPg "SELECT 1" []).1, .query (parseSqlInPg "SELECT 1" []).2] ∧
    (allows.contains (Dest.dOther .rBool).kind = false →
      (queryModelPg ⟨none, none, ⟨["c"], []⟩⟩ (.dOther .rBool) "SELECT 1" []).1 =
        .error ErrAllow) ∧
    (∀ e, (⟨none, none, ⟨["c"], []⟩⟩ : QueryDb).prepareErr = some e →
      (queryModelPg ⟨none, none, ⟨["c"], []⟩⟩ (.dOther .rBool) "SELECT 1" []).2 =
        [.prepare (parseSqlInPg "SELECT 1" []).1]) :=
  query_allowlist_after_execute_amended ⟨none, none, ⟨["c"], []⟩⟩ (.dOther .rBool)
    "SELECT 1" [] rfl rfl

/-- C9 counterexample: a zero-row result set makes the scalar
unmarshaller return the driver's closed-cursor Scan error — an error is
raised, contradicting the claim. -/
theorem unmarshalNumOrStr_zero_rows_cex :
    unmarshalNumOrStrG ⟨["n"], []⟩ "0" = .error "sql: Rows are closed" := rfl

/-- C9 (amended): for a scalar destination and a zero-row result set,
the destination value is never written (the Go caller's `*T` stays at
its zero value), but `Query` does raise an error: `rows.Next()`'s
result is ignored and the following `rows.Scan` returns the driver's
"sql: Rows are closed" error, which is propagated to the caller. -/
theorem scalar_zero_rows_error_amended :
    ∀ (db : QueryDb) (k : RKind) (v0 : String) (sqlStr : String) (args : List GoArg)
      (cols : List String),
      db.prepareErr = none → db.queryErr = none → db.rs = ⟨cols, []⟩ →
      (k = .rInt ∨ k = .rInt64 ∨ k = .rFloat64 ∨ k = .rString) →
      queryModelPg db (.dScalar k v0) sqlStr args =
        (.error "sql: Rows are closed",
         [.prepare (parseSqlInPg sqlStr args).1, .query (parseSqlInPg sqlStr args).2]) := by
  intro db k v0 sqlStr args cols h1 h2 hrs hk
  simp only [queryModelPg, h1, h2, hrs]
  rcases hk with h | h | h | h <;> subst h <;> rfl

/-- Witness for the amended C9 theorem at a concrete int64 destination
over an empty result set. -/
theorem scalar_zero_rows_error_amended_witness :
    queryModelPg ⟨none, none, ⟨["n"], []⟩⟩ (.dScalar .rInt64 "0") "SELECT n FROM t" [] =
      (.error "sql: Rows are closed",
       [.prepare (parseSqlInPg "SELECT n FROM t" []).1,
        .query (parseSqlInPg "SELECT n FROM t" []).2]) :=
  scalar_zero_rows_error_amended ⟨none, none, ⟨["n"], []⟩⟩ .rInt64 "0" "SELECT n FROM t"
    [] ["n"] rfl rfl rfl (Or.inr (Or.inl rfl))

/-- Whether `savePrimaryKey` treats a field as primary-key candidate:
snake-cased name `id`, `json` tag `id`, or a non-empty `pri` tag. -/
def qualifiesPri (f : GoField) : Bool :=
  toSnake f.name = "id" || f.jsonTag = "id" || f.priTag ≠ ""

/-- Whether the field's kind has an entry in `savePriFieldMap`
(`reflect.Int` and `reflect.Int64` only). -/
def priWritable (f : GoField) : Bool :=
  match f.value with
  | .vInt _ => true
  | .vInt64 _ => true
  | _ => false

/-- Write the generated id into the field, converting to its declared
kind. -/
def setPriField (f : GoField) (lastId : Int) : GoField :=
  match f.value with
  | .vInt _ => { f with value := .vInt lastId }
  | .vInt64 _ => { f with value := .vInt64 lastId }
  | _ => f

/-- The field loop of `savePrimaryKey`: at the first candidate field
whose kind is in `savePriFieldMap` the id is written and the loop
returns; a candidate of any other kind is skipped and the scan
continues. -/
def savePriLoop (lastId : Int) : List GoField → List GoField
  | [] => []
  | f :: rest =>
    if qualifiesPri f then
      if priWritable f then setPriField f lastId :: rest
      else f :: savePriLoop lastId rest
    else f :: savePriLoop lastId rest

/-- `savePrimaryKey` (identical in both dialect files), applied to a
pointer to one struct row. -/
def savePrimaryKeyG (row : GoStruct) (lastId : Int) : GoStruct :=
  ⟨row.typeName, row.tableNameM, savePriLoop lastId row.fields⟩

/-- A transaction-level operation issued by a batch Insert/Update. -/
inductive TxOp where
  | txBegin
  | txPrepare (sql : String)
  | txScanId (res : Option Int)
  | txExec (sql : String)
  | txRollback
  | txCommit (ok : Bool)
  deriving DecidableEq

/-- Driver outcomes for one row of a batch Insert: whether the prepare
fails, and the `QueryRow().Scan(&lastId)` outcome. -/
structure RowOracle where
  prepareErr : Option String
  scanRes : Except String Int

/-- Driver outcomes for a whole batch Insert call; rows beyond the
supplied list succeed with id 0. -/
structure TxOracle where
  beginErr : Option String
  rowRes : List RowOracle
  commitErr : Option String

def defaultRowOracle : RowOracle := ⟨none, .ok 0⟩

/-- The row loop of the numbered dialect's `Insert`: synthesize the
row's INSERT, prepare it (failure rolls back), scan the returned id
(failure returns WITHOUT rollback — the source's scan-error path has no
`tx.Rollback()`), write the id back, accumulate the mutated row; after
the last row, commit. -/
def insertLoopPg (tn : String) (orc : List RowOracle) (commitErr : Option String) :
    List GoStruct → Nat → List GoStruct → List TxOp →
      Except String (List GoStruct) × List TxOp
  | [], _, acc, tr =>
    match commitErr with
    | some e => (.error e, tr ++ [.txCommit false])
    | none => (.ok acc, tr ++ [.txCommit true])
  | row :: rest, i, acc, tr =>
    let ro := orc.getD i defaultRowOracle
    let sql := insertSqlPg tn row.fields
    match ro.prepareErr with
    | some e => (.error e, tr ++ [.txPrepare sql, .txRollback])
    | none =>
      match ro.scanRes with
      | .error e => (.error e, tr ++ [.txPrepare sql, .txScanId none])
      | .ok lastId =>
        insertLoopPg tn orc commitErr rest (i + 1) (acc ++ [savePrimaryKeyG row lastId])
          (tr ++ [.txPrepare sql, .txScanId (some lastId)])

/-- `Insert` of the numbered dialect: one transaction around the row
loop. -/
def insertPg (db : TxOracle) (tdecl : GoStruct) (rows : List GoStruct) :
    Except String (List GoStruct) × List TxOp :=
  match db.beginErr with
  | some e => (.error e, [.txBegin])
  | none => insertLoopPg (getTableName tdecl) db.rowRes db.commitErr rows 0 [] [.txBegin]

/-- Driver outcomes for one row of a batch Update. -/
structure URowOracle where
  prepareErr : Option String
  execErr : Option String

/-- Driver outcomes for a whole batch Update call. -/
structure UTxOracle where
  beginErr : Option String
  rowRes : List URowOracle
  commitErr : Option String

def defaultURowOracle : URowOracle := ⟨none, none⟩

/-- The row loop of `Update`: synthesize, prepare and execute each
row's UPDATE; any prepare or exec failure rolls back; after the last
row, commit. -/
def updateLoopPg (w : String) (orc : List URowOracle) (commitErr : Option String) :
    List GoStruct → Nat → List TxOp → Except String Unit × List TxOp
  | [], _, tr =>
    match commitErr with
    | some e => (.error e, tr ++ [.txCommit false])
    | none => (.ok (), tr ++ [.txCommit true])
  | row :: rest, i, tr =>
    let ro := orc.getD i defaultURowOracle
    let sql := generateUpdatePg w row
    match ro.prepareErr with
    | some e => (.error e, tr ++ [.txPrepare sql, .txRollback])
    | none =>
      match ro.execErr with
      | some e => (.error e, tr ++ [.txPrepare sql, .txExec sql, .txRollback])
      | none => updateLoopPg w orc commitErr rest (i + 1) (tr ++ [.txPrepare sql, .txExec sql])

/-- `Update` of the numbered dialect: one transaction around the row
loop. -/
def updatePg (db : UTxOracle) (w : String) (rows : List GoStruct) :
    Except String Unit × List TxOp :=
  match db.beginErr with
  | some e => (.error e, [.txBegin])
  | none => updateLoopPg w db.rowRes db.commitErr rows 0 [.txBegin]

theorem insertLoopPg_no_commit_true (tn : String) (orc : List RowOracle)
    (commitErr : Option String) :
    ∀ (rows : List GoStruct) (i : Nat) (acc : List GoStruct) (tr : List TxOp) (e : String),
      TxOp.txCommit true ∉ tr →
      (insertLoopPg tn orc commitErr rows i acc tr).1 = .error e →
      TxOp.txCommit true ∉ (insertLoopPg tn orc commitErr rows i acc tr).2 := by
  intro rows
  induction rows with
  | nil =>
    intro i acc tr e htr hres
    cases hc : commitErr with
    | some e2 =>
      simp only [insertLoopPg, hc]
      intro hmem
      rcases List.mem_append.mp hmem with h | h
      · exact htr h
      · simp at h
    | none =>
      simp only [insertLoopPg, hc] at hres
      cases hres
  | cons row rest ih =>
    intro i acc tr e htr hres
    cases hp : (orc.getD i defaultRowOracle).prepareErr with
    | some e2 =>
      simp only [insertLoopPg, hp] at hres ⊢
      intro hmem
      rcases List.mem_append.mp hmem with h | h
      · exact htr h
      · simp at h
    | none =>
      cases hs : (orc.getD i defaultRowOracle).scanRes with
      | error e2 =>
        simp only [insertLoopPg, hp, hs] at hres ⊢
        intro hmem
        rcases List.mem_append.mp hmem with h | h
        · exact htr h
        · simp at h
      | ok lastId =>
        simp only [insertLoopPg, hp, hs] at hres ⊢
        refine ih (i + 1) _ _ e ?_ hres
        intro hmem
        rcases List.mem_append.mp hmem with h | h
        · exact htr h
        · simp at h

theorem insertLoopPg_scan_no_rollback (tn : String) (orc : List RowOracle)
    (commitErr : Option String) :
    ∀ (rows : List GoStruct) (i : Nat) (acc : List GoStruct) (tr : List TxOp),
      TxOp.txScanId none ∉ tr → TxOp.txRollback ∉ tr →
      TxOp.txScanId none ∈ (insertLoopPg tn orc commitErr rows i acc tr).2 →
      TxOp.txRollback ∉ (insertLoopPg tn orc commitErr rows i acc tr).2 := by
  intro rows
  induction rows with
  | nil =>
    intro i acc tr hsc hrb hscan
    cases hc : commitErr with
    | some e2 =>
      simp only [insertLoopPg, hc] at hscan
      rcases List.mem_append.mp hscan with h | h
      · exact absurd h hsc
      · simp at h
    | none =>
      simp only [insertLoopPg, hc] at hscan
      rcases List.mem_append.mp hscan with h | h
      · exact absurd h hsc
      · simp at h
  | cons row rest ih =>
    intro i acc tr hsc hrb hscan
    cases hp : (orc.getD i defaultRowOracle).prepareErr with
    | some e2 =>
      simp only [insertLoopPg, hp] at hscan
      rcases List.mem_append.mp hscan with h | h
      · exact absurd h hsc
      · simp at h
    | none =>
      cases hs : (orc.getD i defaultRowOracle).scanRes with
      | error e2 =>
        simp only [insertLoopPg, hp, hs] at hscan ⊢
        intro hmem
        rcases List.mem_append.mp hmem with h | h
        · exact hrb h
        · simp at h
      | ok lastId =>
        simp only [insertLoopPg, hp, hs] at hscan ⊢
        refine ih (i + 1) _ _ ?_ ?_ hscan
        · intro hmem
          rcases List.mem_append.mp hmem with h | h
          · exact hsc h
          · simp at h
        · intro hmem
          rcases List.mem_append.mp hmem with h | h
          · exact hrb h
          · simp at h

theorem updateLoopPg_no_commit_true (w : String) (orc : List URowOracle)
    (commitErr : Option String) :
    ∀ (rows : List GoStruct) (i : Nat) (tr : List TxOp) (e : String),
      TxOp.txCommit true ∉ tr →
      (updateLoopPg w orc commitErr rows i tr).1 = .error e →
      TxOp.txCommit true ∉ (updateLoopPg w orc commitErr rows i tr).2 := by
  intro rows
  induction rows with
  | nil =>
    intro i tr e htr hres
    cases hc : commitErr with
    | some e2 =>
      simp only [updateLoopPg, hc]
      intro hmem
      rcases List.mem_append.mp hmem with h | h
      · exact htr h
      · simp at h
    | none =>
      simp only [updateLoopPg, hc] at hres
      cases hres
  | cons row rest ih =>
    intro i tr e htr hres
    cases hp : (orc.getD i defaultURowOracle).prepareErr with
    | some e2 =>
      simp only [updateLoopPg, hp] at hres ⊢
      intro hmem
      rcases List.mem_append.mp hmem with h | h
      · exact htr h
      · simp at h
    | none =>
      cases hx : (orc.getD i defaultURowOracle).execErr with
      | some e2 =>
        simp only [updateLoopPg, hp, hx] at hres ⊢
        intro hmem
        rcases List.mem_append.mp hmem with h | h
        · exact htr h
        · simp at h
      | none =>
        simp only [updateLoopPg, hp, hx] at hres ⊢
        refine ih (i + 1) _ e ?_ hres
        intro hmem
        rcases List.mem_append.mp hmem with h | h
        · exact htr h
        · simp at h

theorem updateLoopPg_rollback_on_error (w : String) (orc : List URowOracle)
    (commitErr : Option String) :
    ∀ (rows : List GoStruct) (i : Nat) (tr : List TxOp) (e : String),
      (updateLoopPg w orc commitErr rows i tr).1 = .error e →
      TxOp.txCommit false ∉ (updateLoopPg w orc commitErr rows i tr).2 →
      TxOp.txRollback ∈ (updateLoopPg w orc commitErr rows i tr).2 := by
  intro rows
  induction rows with
  | nil =>
    intro i tr e hres hnc
    cases hc : commitErr with
    | some e2 =>
      simp only [updateLoopPg, hc] at hnc
      exact absurd (List.mem_append.mpr (Or.inr (by simp))) hnc
    | none =>
      simp only [updateLoopPg, hc] at hres
      cases hres
  | cons row rest ih =>
    intro i tr e hres hnc
    cases hp : (orc.getD i defaultURowOracle).prepareErr with
    | some e2 =>
      simp only [updateLoopPg, hp]
      exact List.mem_append.mpr (Or.inr (by simp))
    | none =>
      cases hx : (orc.getD i defaultURowOracle).execErr with
      | some e2 =>
        simp only [updateLoopPg, hp, hx]
        exact List.mem_append.mpr (Or.inr (by simp))
      | none =>
        simp only [updateLoopPg, hp, hx] at hres hnc ⊢
        exact ih (i + 1) _ e hres hnc

theorem insertLoopPg_all_success (tn : String) :
    ∀ (rows : List GoStruct) (i : Nat) (acc : List GoStruct) (tr : List TxOp),
      (insertLoopPg tn [] none rows i acc tr).1 =
        .ok (acc ++ rows.map (fun r => savePrimaryKeyG r 0)) := by
  intro rows
  induction rows with
  | nil =>
    intro i acc tr
    simp [insertLoopPg]
  | cons row rest ih =>
    intro i acc tr
    have hro : (([] : List RowOracle).getD i defaultRowOracle) = defaultRowOracle := rfl
    simp only [insertLoopPg, hro]
    rw [show defaultRowOracle.prepareErr = none from rfl,
      show defaultRowOracle.scanRes = .ok 0 from rfl]
    rw [ih (i + 1) (acc ++ [savePrimaryKeyG row 0])]
    simp

/-- C10 counterexample: in a row whose first primary-key candidate
(`Id`, snake name `id`) has kind string, the write-back does not leave
the row unchanged — the scan continues and writes the id into a later
`pri`-tagged int64 field. -/
theorem savePrimaryKey_multi_candidate_cex :
    savePrimaryKeyG
        ⟨"User", none, [⟨"Id", "", "", .vStr "x"⟩, ⟨"Uid", "", "pk", .vInt64 0⟩]⟩ 7 =
      ⟨"User", none, [⟨"Id", "", "", .vStr "x"⟩, ⟨"Uid", "", "pk", .vInt64 7⟩]⟩ ∧
    savePrimaryKeyG
        ⟨"User", none, [⟨"Id", "", "", .vStr "x"⟩, ⟨"Uid", "", "pk", .vInt64 0⟩]⟩ 7 ≠
      ⟨"User", none, [⟨"Id", "", "", .vStr "x"⟩, ⟨"Uid", "", "pk", .vInt64 0⟩]⟩ :=
  ⟨rfl, by decide⟩

theorem savePriLoop_id (lastId : Int) :
    ∀ l : List GoField, (∀ f ∈ l, qualifiesPri f = false ∨ priWritable f = false) →
      savePriLoop lastId l = l := by
  intro l
  induction l with
  | nil => intro _; rfl
  | cons f rest ih =>
    intro hall
    have hrest := fun g hg => hall g (List.mem_cons_of_mem _ hg)
    rcases hall f (by simp) with hq | hw
    · unfold savePriLoop
      rw [if_neg (by rw [hq]; exact Bool.false_ne_true), ih hrest]
    · unfold savePriLoop
      by_cases hq : qualifiesPri f
      · rw [if_pos hq, if_neg (by rw [hw]; exact Bool.false_ne_true), ih hrest]
      · rw [if_neg hq, ih hrest]

theorem savePriLoop_first (lastId : Int) (f : GoField) (post : List GoField)
    (hq : qualifiesPri f = true) (hw : priWritable f = true) :
    ∀ pre : List GoField, (∀ g ∈ pre, qualifiesPri g = false ∨ priWritable g = false) →
      savePriLoop lastId (pre ++ f :: post) = pre ++ setPriField f lastId :: post := by
  intro pre
  induction pre with
  | nil =>
    intro _
    rw [List.nil_append]
    unfold savePriLoop
    rw [if_pos hq, if_pos hw]
    rfl
  | cons g pre' ih =>
    intro hall
    have hpre' := fun e he => hall e (List.mem_cons_of_mem _ he)
    rw [List.cons_append]
    rcases hall g (by simp) with hgq | hgw
    · unfold savePriLoop
      rw [if_neg (by rw [hgq]; exact Bool.false_ne_true), ih hpre']
      rfl
    · unfold savePriLoop
      by_cases hgq : qualifiesPri g
      · rw [if_pos hgq, if_neg (by rw [hgw]; exact Bool.false_ne_true), ih hpre']
        rfl
      · rw [if_neg hgq, ih hpre']
        rfl

/-- C10 (amended): the write-back scans the fields in order and writes
the generated id into the FIRST field that both qualifies as primary
key (snake name `id`, `json` tag `id`, or `pri` tag) and has declared
kind int or int64 — a qualifying field of any other kind is skipped
rather than ending the search; only when no qualifying field of kind
int/int64 exists is the row left unchanged.  In every case Insert still
appends the (possibly mutated) row and reports no error. -/
theorem savePrimaryKey_amended :
    (∀ (row : GoStruct) (lastId : Int),
      (∀ f ∈ row.fields, qualifiesPri f = false ∨ priWritable f = false) →
      savePrimaryKeyG row lastId = row) ∧
    (∀ (n : String) (t : Option String) (pre : List GoField) (f : GoField)
        (post : List GoField) (lastId : Int),
      (∀ g ∈ pre, qualifiesPri g = false ∨ priWritable g = false) →
      qualifiesPri f = true → priWritable f = true →
      savePrimaryKeyG ⟨n, t, pre ++ f :: post⟩ lastId =
        ⟨n, t, pre ++ setPriField f lastId :: post⟩) ∧
    (∀ (tdecl : GoStruct) (rows : List GoStruct),
      (insertPg ⟨none, [], none⟩ tdecl rows).1 =
        .ok (rows.map (fun r => savePrimaryKeyG r 0))) := by
  refine ⟨?_, ?_, ?_⟩
  · intro row lastId hall
    unfold savePrimaryKeyG
    rw [savePriLoop_id lastId row.fields hall]
  · intro n t pre f post lastId hall hq hw
    unfold savePrimaryKeyG
    rw [savePriLoop_first lastId f post hq hw pre hall]
  · intro tdecl rows
    unfold insertPg
    exact insertLoopPg_all_success (getTableName tdecl) rows 0 [] [.txBegin]

/-- Witness for the amended C10 theorem: a row whose only candidate is
a string-kinded `Id` field is left unchanged. -/
theorem savePrimaryKey_amended_witness :
    savePrimaryKeyG ⟨"User", none, [⟨"Id", "", "", .vStr "x"⟩]⟩ 7 =
      ⟨"User", none, [⟨"Id", "", "", .vStr "x"⟩]⟩ :=
  savePrimaryKey_amended.1 ⟨"User", none, [⟨"Id", "", "", .vStr "x"⟩]⟩ 7 (by decide)

/-- C1 counterexample: when the id-returning scan of the first row
fails, the numbered dialect's Insert returns the error without ever
calling `tx.Rollback()` — the transaction is abandoned, not rolled
back. -/
theorem insert_scan_failure_no_rollback_cex :
    insertPg ⟨none, [⟨none, .error "scan boom"⟩], none⟩ ⟨"User", none, []⟩
        [⟨"User", none, [⟨"Name", "", "", .vStr "a"⟩]⟩] =
      (.error "scan boom",
       [.txBegin, .txPrepare "INSERT INTO user(name) VALUES ('a') RETURNING id",
        .txScanId none]) ∧
    TxOp.txRollback ∉ ([.txBegin,
      .txPrepare "INSERT INTO user(name) VALUES ('a') RETURNING id",
      .txScanId none] : List TxOp) :=
  ⟨rfl, by decide⟩

/-- C1 (amended): batch Insert and Update never commit when any row
fails, so no partial application is ever committed and no results are
returned; Update (and Insert's prepare-failure path) explicitly rolls
the transaction back on every row failure, but Insert's row-scan
failure path returns the error without calling rollback, leaving the
transaction open. -/
theorem insert_update_atomicity_amended :
    (∀ (db : TxOracle) (tdecl : GoStruct) (rows : List GoStruct) (e : String),
      (insertPg db tdecl rows).1 = .error e →
      TxOp.txCommit true ∉ (insertPg db tdecl rows).2) ∧
    (∀ (db : UTxOracle) (w : String) (rows : List GoStruct) (e : String),
      (updatePg db w rows).1 = .error e →
      TxOp.txCommit true ∉ (updatePg db w rows).2) ∧
    (∀ (db : UTxOracle) (w : String) (rows : List GoStruct) (e : String),
      db.beginErr = none →
      (updatePg db w rows).1 = .error e →
      TxOp.txCommit false ∉ (updatePg db w rows).2 →
      TxOp.txRollback ∈ (updatePg db w rows).2) ∧
    (∀ (db : TxOracle) (tdecl : GoStruct) (rows : List GoStruct),
      TxOp.txScanId none ∈ (insertPg db tdecl rows).2 →
      TxOp.txRollback ∉ (insertPg db tdecl rows).2) := by
  refine ⟨?_, ?_, ?_, ?_⟩
  · intro db tdecl rows e hres
    cases hb : db.beginErr with
    | some e2 =>
      simp only [insertPg, hb]
      simp
    | none =>
      simp only [insertPg, hb] at hres ⊢
      exact insertLoopPg_no_commit_true _ _ _ rows 0 [] [.txBegin] e (by simp) hres
  · intro db w rows e hres
    cases hb : db.beginErr with
    | some e2 =>
      simp only [updatePg, hb]
      simp
    | none =>
      simp only [updatePg, hb] at hres ⊢
      exact updateLoopPg_no_commit_true _ _ _ rows 0 [.txBegin] e (by simp) hres
  · intro db w rows e hb hres hnc
    simp only [updatePg, hb] at hres hnc ⊢
    exact updateLoopPg_rollback_on_error _ _ _ rows 0 [.txBegin] e hres hnc
  · intro db tdecl rows hscan
    cases hb : db.beginErr with
    | some e2 =>
      simp only [insertPg, hb] at hscan
      simp at hscan
    | none =>
      simp only [insertPg, hb] at hscan ⊢
      exact insertLoopPg_scan_no_rollback _ _ _ rows 0 [] [.txBegin] (by simp) (by simp) hscan

/-- Witness for the amended C1 theorem at the concrete scan-failure
run: no rollback appears in the trace. -/
theorem insert_update_atomicity_amended_witness :
    TxOp.txRollback ∉ (insertPg ⟨none, [⟨none, .error "scan boom"⟩], none⟩
      ⟨"User", none, []⟩ [⟨"User", none, [⟨"Name", "", "", .vStr "a"⟩]⟩]).2 :=
  insert_update_atomicity_amended.2.2.2 ⟨none, [⟨none, .error "scan boom"⟩], none⟩
    ⟨"User", none, []⟩ [⟨"User", none, [⟨"Name", "", "", .vStr "a"⟩]⟩] (by decide)

end Orm
